import Mathlib

/-!
Verification of the rip-ship-order webhook service.

The repository contains several variants of the same webhook procedure:
  * `src/index.js`               : express route + `handleRipShipLogic`
  * `src/api/orders-create.js`   : (a) a handler built on `lib/inventory-helpers.js`,
                                   (b) a self-contained `server.js` style variant
  * `src/unnamed/part_000`       : a handler combining raw-body HMAC verification
                                   with the same helper-based reconciliation core
  * `src/lib/*`                  : the axios client and the inventory helpers

This file shallowly embeds those programs.  Strings are `List Char`.  The
remote commerce platform is modelled by an environment of read-only lookups
(`Env`) plus a mutable inventory state threaded through processing (`St`);
every outbound REST request the code performs is recorded as a `Call`.
JavaScript semantics that matter are made explicit:
  * falsiness of `0`, `null`/`undefined` and the empty string,
  * `null` coercing to `0` in `>` comparisons and unary minus,
  * `crypto.timingSafeEqual` throwing when the two buffers differ in length,
  * `for (... of undefined)` throwing,
  * axios/fetch helpers throwing on a non-2xx response (e.g. a lookup with an
    `undefined` id hits a 404), which the handlers catch and turn into a 500.
-/

/-- Strings of the embedded programs: lists of characters. -/
abbrev Str := List Char

/-- One outbound REST request made by the service.  The location id is the
single configured location and is left implicit.  Lookup ids are `Option Int`
because the JavaScript code can interpolate `undefined` into a request URL. -/
inductive Call where
  /-- GET /products/{id}/metafields.json?namespace=rip&key=master_sku -/
  | getMetafield : Option Int → Call
  /-- GET /variants/{id}/metafields.json (server.js variant detection) -/
  | getVariantMeta : Option Int → Call
  /-- GET /variants/{id}.json -/
  | getVariant : Option Int → Call
  /-- GET /variants.json?sku=... -/
  | getVariantBySku : Str → Call
  /-- GET /inventory_levels.json?inventory_item_ids=... -/
  | getLevel : Int → Call
  /-- POST /inventory_levels/adjust.json with a signed available_adjustment -/
  | adjust : Int → Int → Call
  /-- PUT /orders/{id}.json writing the tag string -/
  | putOrderTags : Int → Str → Call
deriving DecidableEq

/-- A webhook line item; each field may be absent (`undefined`/`null`). -/
structure LineItem where
  product_id : Option Int
  variant_id : Option Int
  quantity : Option Int
deriving DecidableEq

/-- The decoded order payload.  `line_items` is `none` when the JSON object
has no such field (iterating it then throws). -/
structure ShopOrder where
  id : Int
  tags : Option Str
  line_items : Option (List LineItem)
deriving DecidableEq

/-- Read-only remote data.  `productMasterSku` is the value of the product
metafield rip.master_sku (`some []` models an empty-string value, which is
falsy).  `inventoryItemOf` maps a variant id to its inventory_item_id, with
`0` encoding a falsy/absent id.  `variantBySku` returns the
inventory_item_id of the first variant matching a SKU, `none` when the
variant list is empty.  `variantMasterSku` is the variant-level metafield
used by the server.js variant. -/
structure Env where
  productMasterSku : Int → Option Str
  variantMasterSku : Int → Option Str
  inventoryItemOf : Int → Int
  variantBySku : Str → Option Int

/-- Mutable remote state: per inventory item the available count at the
configured location (`none` = untracked/null), plus the trace of outbound
calls made so far. -/
structure St where
  inv : Int → Option Int
  calls : List Call

/-- Record an outbound call that does not change inventory. -/
def record (st : St) (c : Call) : St :=
  { st with calls := st.calls ++ [c] }

/-- POST /inventory_levels/adjust.json: applies the signed delta to the
item's available count (an untracked/null count is treated as 0 by the
platform when adjusted) and records the call. -/
def applyAdjust (st : St) (i d : Int) : St :=
  { inv := fun j => if j = i then some ((st.inv i).getD 0 + d) else st.inv j,
    calls := st.calls ++ [Call.adjust i d] }

/-- Net signed adjustment applied to inventory item `i` by a call trace. -/
def netAdjustment (i : Int) : List Call → Int
  | [] => 0
  | Call.adjust j d :: rest => (if j = i then d else 0) + netAdjustment i rest
  | _ :: rest => netAdjustment i rest

/-- JavaScript truthiness of an optional number: `undefined`, `null` and `0`
are falsy. -/
def truthyNum : Option Int → Bool
  | none => false
  | some n => n != 0

/-- JavaScript truthiness of an optional string: `undefined`, `null` and the
empty string are falsy. -/
def truthyStr : Option Str → Bool
  | none => false
  | some s => s != []

/-! ## String operations (`split`, `trim`, `join`) -/

/-- Whitespace as trimmed by `String.prototype.trim`. -/
def isWs (c : Char) : Bool := c.isWhitespace

/-- Drop leading whitespace. -/
def trimL (s : Str) : Str := s.dropWhile isWs

/-- Drop trailing whitespace. -/
def trimR (s : Str) : Str := (s.reverse.dropWhile isWs).reverse

/-- JavaScript `s.trim()`. -/
def jsTrim (s : Str) : Str := trimR (trimL s)

/-- Worker for `jsSplit`; `acc` holds the current chunk reversed. -/
def jsSplitAux : List Char → List Char → List Str
  | [], acc => [acc.reverse]
  | c :: cs, acc => if c = ',' then acc.reverse :: jsSplitAux cs [] else jsSplitAux cs (c :: acc)

/-- JavaScript `s.split(",")`. -/
def jsSplit (s : Str) : List Str := jsSplitAux s []

/-- JavaScript `array.join(sep)`. -/
def jsJoin (sep : Str) : List Str → Str
  | [] => []
  | [x] => x
  | x :: xs => x ++ sep ++ jsJoin sep xs

/-- `tags.split(",").map(t => t.trim()).filter(Boolean)` — the tag-parsing
pipeline shared by every tagger in the repository. -/
def parseTags (s : Str) : List Str := ((jsSplit s).map jsTrim).filter (fun t => t != [])

/-- `Set.prototype.add`: appends iff not already present (insertion order). -/
def jsSetAdd (l : List Str) (x : Str) : List Str := if x ∈ l then l else l ++ [x]

/-- `new Set(list)` in insertion order: first occurrences survive. -/
def jsSetOf (l : List Str) : List Str := l.foldl jsSetAdd []

/-- The marker tag written by index.js and the server.js variant. -/
def ripShipTag : Str := ['R', 'I', 'P', ' ', '&', ' ', 'S', 'H', 'I', 'P']

/-- The marker tag written by the orders-create.js / part_000 handler. -/
def ripshipTag : Str := ['r', 'i', 'p', 's', 'h', 'i', 'p']

/-- The separator `", "` used by every `join` in the repository. -/
def sepCommaSpace : Str := [',', ' ']

/-- `tagOrderRipShip` (index.js lines 235-256, also server.js lines 224-241):
parse the existing tags, push the marker if absent, join with `", "`.
Returns the tag string written back. -/
def tagOrderRipShip (tags : Option Str) : Str :=
  let existingTags := parseTags (tags.getD [])
  let outTags := if ripShipTag ∈ existingTags then existingTags else existingTags ++ [ripShipTag]
  jsJoin sepCommaSpace outTags

/-- The tagging step of the orders-create.js handler (lines 52-65) and
part_000 (lines 97-111): same pipeline but deduplicated through a `Set`
and with marker `"ripship"`. -/
def tagOrderHandler (tags : Option Str) : Str :=
  let tagsSet := jsSetOf (parseTags (tags.getD []))
  jsJoin sepCommaSpace (jsSetAdd tagsSet ripshipTag)

/-! ## The clamp-and-deduct steps -/

/-- index.js lines 123-141: `adjustQty = Math.min(quantity, masterAvailable)`;
if `adjustQty <= 0` no adjustment is made, otherwise the delta `-adjustQty`
is applied.  Returns the delta of the call, `none` when no call is made. -/
def clampDeductIndex (quantity masterAvailable : Int) : Option Int :=
  let adjustQty := min quantity masterAvailable
  if adjustQty ≤ 0 then none else some (-adjustQty)

/-- orders-create.js line 45 / part_000 line 92:
`quantity > available ? -available : -quantity`.  `available` comes from
`getInventoryLevel`, which can return `null`; JavaScript coerces `null` to
`0` both in the comparison and under unary minus.  The resulting delta is
always passed to `adjustInventory` (the call is unconditional). -/
def safeAdjustment (quantity : Int) (available : Option Int) : Int :=
  let a := available.getD 0
  if a < quantity then -a else -quantity

/-! ## Signature verification -/

/-- Outcome of an HMAC check: the comparison returned `true`, returned
`false`, or threw (caught by the route's `try`, producing a 500). -/
inductive VerifyResult where
  | ok : VerifyResult
  | failed : VerifyResult
  | throws : VerifyResult
deriving DecidableEq

/-- `verifyShopifyHmac` (index.js lines 45-56).  `digest` stands for the
base64 HMAC-SHA256 of the exact raw body under the configured secret (44
characters for a real digest).  `!secret || !hmacHeader` returns `false`
(an absent or empty header fails closed); otherwise
`crypto.timingSafeEqual(Buffer.from(digest), Buffer.from(hmacHeader))`
throws when the byte lengths differ and compares for equality when they
match. -/
def verifyShopifyHmac (secretPresent : Bool) (digest : Str) : Option Str → VerifyResult
  | none => .failed
  | some h =>
    if ¬secretPresent ∨ h = [] then .failed
    else if h.length ≠ digest.length then .throws
    else if h = digest then .ok else .failed

/-- `verifyShopifyWebhook` (server.js variant, orders-create.js lines
97-105) and `verifyShopifyHmac` of part_000 (lines 28-40): no guard on the
header, so `Buffer.from(undefined)` throws when it is absent; a
length mismatch makes `timingSafeEqual` throw as well. -/
def verifyShopifyWebhook (digest : Str) : Option Str → VerifyResult
  | none => .throws
  | some h =>
    if h.length ≠ digest.length then .throws
    else if h = digest then .ok else .failed

/-! ## index.js: `handleRipShipLogic` and the express route -/

/-- One iteration of the line-item loop of `handleRipShipLogic`
(index.js lines 71-142).  Returns the updated state and whether this item
set `hasRipShip`. -/
def processLineIndex (env : Env) (st : St) (li : LineItem) : St × Bool :=
  if truthyNum li.product_id && truthyNum li.variant_id && truthyNum li.quantity then
    let pid := li.product_id.getD 0
    let vid := li.variant_id.getD 0
    let q := li.quantity.getD 0
    let st1 := record st (Call.getMetafield (some pid))
    match env.productMasterSku pid with
    | none => (st1, false)
    | some masterSku =>
      if masterSku = [] then (st1, false)
      else
        -- hasRipShip is set here, before any variant resolution
        let st2 := record st1 (Call.getVariant (some vid))
        let ripInventoryItemId := env.inventoryItemOf vid
        if ripInventoryItemId = 0 then (st2, true)
        else
          let st3 := record st2 (Call.getVariantBySku masterSku)
          match env.variantBySku masterSku with
          | none => (st3, true)
          | some masterInventoryItemId =>
            -- 4) restore quantity to the RIP SKU
            let st4 := applyAdjust st3 ripInventoryItemId q
            -- 5) read master availability (null and no-row map to 0)
            let st5 := record st4 (Call.getLevel masterInventoryItemId)
            let masterAvailable := (st5.inv masterInventoryItemId).getD 0
            match clampDeductIndex q masterAvailable with
            | none => (st5, true)
            | some d => (applyAdjust st5 masterInventoryItemId d, true)
  else (st, false)

/-- The `for (const lineItem of lineItems)` loop with the `hasRipShip`
accumulator. -/
def ripShipLoopIndex (env : Env) : St → Bool → List LineItem → St × Bool
  | st, flag, [] => (st, flag)
  | st, flag, li :: rest =>
    let p := processLineIndex env st li
    ripShipLoopIndex env p.1 (flag || p.2) rest

/-- `handleRipShipLogic` (index.js lines 58-148): loop over
`order.line_items || []`, then tag the order iff some item was detected. -/
def handleRipShipLogic (env : Env) (st : St) (order : ShopOrder) : St :=
  let p := ripShipLoopIndex env st false (order.line_items.getD [])
  if p.2 then record p.1 (Call.putOrderTags order.id (tagOrderRipShip order.tags)) else p.1

/-- The express route `POST /webhooks/orders/create` (index.js lines
10-34).  `digest` abstracts the base64 HMAC of the exact raw body; `body`
is the result of `JSON.parse` on those bytes (`none` = parse throws);
`envOk` is whether the three required env variables are set (a missing one
throws).  All throws are caught and answered with a 500.  Returns the
response status and the trace of outbound calls. -/
def webhookRouteIndex (secretPresent : Bool) (digest : Str) (hmacHeader : Option Str)
    (envOk : Bool) (body : Option ShopOrder) (env : Env) (inv0 : Int → Option Int) :
    Nat × List Call :=
  match verifyShopifyHmac secretPresent digest hmacHeader with
  | .failed => (401, [])
  | .throws => (500, [])
  | .ok =>
    match body with
    | none => (500, [])
    | some order =>
      if envOk then (200, (handleRipShipLogic env { inv := inv0, calls := [] } order).calls)
      else (500, [])

/-! ## orders-create.js handler (lines 1-72) and the part_000 core -/

/-- One iteration of the loop of the orders-create.js handler (lines 19-49,
identical to part_000 lines 68-95).  The handler never checks its line-item
fields: `getRipMasterSku(undefined)` requests
`/products/undefined/metafields.json`, a 404 that makes axios throw, and
likewise for a variant lookup with an `undefined` id or an adjustment with
an `undefined` quantity.  A throw aborts the whole request (`.error`),
keeping the calls already made. -/
def processLineHandler (env : Env) (st : St) (li : LineItem) : Except St (St × Bool) :=
  match li.product_id with
  | none => .error (record st (Call.getMetafield none))
  | some pid =>
    let st1 := record st (Call.getMetafield (some pid))
    match env.productMasterSku pid with
    | none => .ok (st1, false)
    | some masterSku =>
      if masterSku = [] then .ok (st1, false)
      else
        -- isRipShip is set here
        match li.variant_id with
        | none => .error (record st1 (Call.getVariant none))
        | some vid =>
          let st2 := record st1 (Call.getVariant (some vid))
          let ripInventoryItemId := env.inventoryItemOf vid
          match li.quantity with
          | none => .error st2
          | some q =>
            -- undo the platform's deduction, before the master lookup
            let st3 := applyAdjust st2 ripInventoryItemId q
            let st4 := record st3 (Call.getVariantBySku masterSku)
            match env.variantBySku masterSku with
            | none => .ok (st4, true)
            | some masterInventoryItemId =>
              let st5 := record st4 (Call.getLevel masterInventoryItemId)
              let available := st5.inv masterInventoryItemId
              .ok (applyAdjust st5 masterInventoryItemId (safeAdjustment q available), true)

/-- The handler's `for (const line of order.line_items)` loop with the
`isRipShip` accumulator; an exception aborts the loop. -/
def handlerLoop (env : Env) : St → Bool → List LineItem → Except St (St × Bool)
  | st, flag, [] => .ok (st, flag)
  | st, flag, li :: rest =>
    match processLineHandler env st li with
    | .error st1 => .error st1
    | .ok (st1, f) => handlerLoop env st1 (flag || f) rest

/-- Loop plus conditional tagging plus response, shared verbatim by the
orders-create.js handler (lines 18-71) and part_000 (lines 65-118). -/
def runHandlerCore (env : Env) (inv0 : Int → Option Int) (order : ShopOrder)
    (items : List LineItem) : Nat × List Call :=
  match handlerLoop env { inv := inv0, calls := [] } false items with
  | .error st => (500, st.calls)
  | .ok (st, isRipShip) =>
    if isRipShip then
      (200, (record st (Call.putOrderTags order.id (tagOrderHandler order.tags))).calls)
    else (200, st.calls)

/-- The orders-create.js default handler (lines 9-72).  It reads
`req.body` directly — there is no signature verification of any kind — and
iterating a missing `line_items` throws, caught as a 500. -/
def handlerOrdersCreate (env : Env) (inv0 : Int → Option Int) (isPost : Bool)
    (order : ShopOrder) : Nat × List Call :=
  if isPost then
    match order.line_items with
    | none => (500, [])
    | some items => runHandlerCore env inv0 order items
  else (405, [])

/-- The part_000 handler (lines 42-119): raw body, HMAC verification with
the embedded secret (no absent-header guard), JSON parse only after the
HMAC passes, then the same core as the orders-create.js handler. -/
def handlerPart000 (digest : Str) (hmacHeader : Option Str) (isPost : Bool)
    (body : Option ShopOrder) (env : Env) (inv0 : Int → Option Int) : Nat × List Call :=
  if isPost then
    match verifyShopifyWebhook digest hmacHeader with
    | .throws => (500, [])
    | .failed => (401, [])
    | .ok =>
      match body with
      | none => (500, [])
      | some order =>
        match order.line_items with
        | none => (500, [])
        | some items => runHandlerCore env inv0 order items
  else (405, [])

/-! ## The server.js variant (orders-create.js lines 73-254) -/

/-- Detection pass (lines 140-163): per line item with truthy variant id
and quantity, read the variant metafields and collect `(line, masterSku)`
for those carrying rip.master_sku. -/
def detectLoopServer (env : Env) : St → List LineItem → St × List (LineItem × Str)
  | st, [] => (st, [])
  | st, li :: rest =>
    if truthyNum li.variant_id && truthyNum li.quantity then
      let vid := li.variant_id.getD 0
      let st1 := record st (Call.getVariantMeta (some vid))
      match env.variantMasterSku vid with
      | none => detectLoopServer env st1 rest
      | some v =>
        if v = [] then detectLoopServer env st1 rest
        else
          let p := detectLoopServer env st1 rest
          (p.1, (li, v) :: p.2)
    else detectLoopServer env st rest

/-- Processing pass body (lines 171-221): resolve the rip variant and the
master variant, then adjust `+quantity` on the rip item and `-quantity` on
the master item — no availability read and no clamping. -/
def processRipItemServer (env : Env) (st : St) (li : LineItem) (masterSku : Str) : St :=
  let vid := li.variant_id.getD 0
  let q := li.quantity.getD 0
  let st1 := record st (Call.getVariant (some vid))
  let ripInventoryItemId := env.inventoryItemOf vid
  let st2 := record st1 (Call.getVariantBySku masterSku)
  match env.variantBySku masterSku with
  | none => st2
  | some masterInventoryItemId =>
    let st3 := applyAdjust st2 ripInventoryItemId q
    applyAdjust st3 masterInventoryItemId (-q)

/-- The processing pass over the collected rip items. -/
def processLoopServer (env : Env) : St → List (LineItem × Str) → St
  | st, [] => st
  | st, (li, sku) :: rest => processLoopServer env (processRipItemServer env st li sku) rest

/-- The server.js route `POST /webhooks/orders/create` (lines 128-250):
verify (throwing on an absent or wrong-length header), parse, detect,
answer early when nothing was detected, otherwise process every detected
item and tag the order. -/
def webhookRouteServer (digest : Str) (hmacHeader : Option Str)
    (body : Option ShopOrder) (env : Env) (inv0 : Int → Option Int) : Nat × List Call :=
  match verifyShopifyWebhook digest hmacHeader with
  | .throws => (500, [])
  | .failed => (401, [])
  | .ok =>
    match body with
    | none => (500, [])
    | some order =>
      let p := detectLoopServer env { inv := inv0, calls := [] } (order.line_items.getD [])
      if p.2 = [] then (200, p.1.calls)
      else
        let st := processLoopServer env p.1 p.2
        (200, (record st (Call.putOrderTags order.id (tagOrderRipShip order.tags))).calls)

/-! ## Statement vocabulary -/

/-- A line item is a detected rip-and-ship candidate for index.js: all
three fields truthy and the product's rip.master_sku metafield truthy. -/
def detectedIndex (env : Env) (li : LineItem) : Bool :=
  truthyNum li.product_id && truthyNum li.variant_id && truthyNum li.quantity &&
    truthyStr (env.productMasterSku (li.product_id.getD 0))

/-- A line item is detected by the orders-create.js / part_000 handler:
the product id is present and its rip.master_sku metafield is truthy. -/
def detectedHandler (env : Env) (li : LineItem) : Bool :=
  match li.product_id with
  | none => false
  | some pid => truthyStr (env.productMasterSku pid)

/-- All three fields present (the orders-create.js handler throws on a
missing field at its point of use, never skipping). -/
def wellFormedItem (li : LineItem) : Bool :=
  li.product_id.isSome && li.variant_id.isSome && li.quantity.isSome

/-- The state reached by a handler-loop step, throw or no throw. -/
def stOf : Except St (St × Bool) → St
  | .error st => st
  | .ok (st, _) => st

/-- Calls that mutate the store: inventory adjustments and tag writes. -/
def isAdjustOrTag : Call → Bool
  | .adjust _ _ => true
  | .putOrderTags _ _ => true
  | _ => false

/-- Adjust calls only (deductions are those with a negative delta). -/
def isAdjust : Call → Bool
  | .adjust _ _ => true
  | _ => false

/-! ## Concrete fixtures for witnesses and counterexamples

A store with one rip-and-ship product: product `1` carries the metafield
value `"M"`, its variant `5` has inventory item `100`, and SKU `"M"`
resolves to the master variant with inventory item `200`. -/

/-- The master SKU string `"M"`. -/
def skuM : Str := ['M']

def envFix : Env :=
  { productMasterSku := fun p => if p = 1 then some skuM else none,
    variantMasterSku := fun v => if v = 5 then some skuM else none,
    inventoryItemOf := fun v => if v = 5 then 100 else 0,
    variantBySku := fun s => if s = skuM then some 200 else none }

/-- Same store but no variant matches any SKU. -/
def envNoMaster : Env := { envFix with variantBySku := fun _ => none }

/-- A store with no rip-and-ship metafields at all. -/
def envNoMeta : Env := { envFix with productMasterSku := fun _ => none }

/-- Master item 200 has zero available stock. -/
def invZero : Int → Option Int := fun i => if i = 200 then some 0 else some 10

/-- Master item 200 has five available. -/
def invFive : Int → Option Int := fun i => if i = 200 then some 5 else some 10

/-- A line item ordering three units of variant 5 of product 1. -/
def liFix : LineItem := ⟨some 1, some 5, some 3⟩

/-- An order with that single line item and no pre-existing tags. -/
def orderFix : ShopOrder := ⟨7, some [], some [liFix]⟩

/-- The same order with a missing (undefined) variant id on its item. -/
def orderNoVariantId : ShopOrder := ⟨7, some [], some [⟨some 1, none, some 2⟩]⟩

/-- An order whose payload has no `line_items` field. -/
def orderNoItems : ShopOrder := ⟨7, some [], none⟩

/-- A stand-in for the 44-character base64 HMAC digest of the raw body. -/
def digestFix : Str := List.replicate 43 'A' ++ ['=']

/-! ## Lemmas about the string pipeline -/

theorem trimR_eq_rdropWhile (s : Str) : trimR s = List.rdropWhile isWs s := rfl

theorem mem_trimL {x : Char} {s : Str} (h : x ∈ trimL s) : x ∈ s := by
  induction s with
  | nil => simp [trimL] at h
  | cons c cs ih =>
    by_cases hc : isWs c
    · simp only [trimL, List.dropWhile_cons_of_pos hc] at h
      exact List.mem_cons_of_mem _ (ih h)
    · simpa [trimL, List.dropWhile_cons_of_neg hc] using h

theorem mem_trimR {x : Char} {s : Str} (h : x ∈ trimR s) : x ∈ s := by
  rw [trimR] at h
  rw [List.mem_reverse] at h
  rw [← List.mem_reverse]
  exact mem_trimL h

theorem mem_jsTrim {x : Char} {s : Str} (h : x ∈ jsTrim s) : x ∈ s :=
  mem_trimL (mem_trimR h)

theorem trimL_idem (s : Str) : trimL (trimL s) = trimL s :=
  List.dropWhile_idempotent isWs s

/-- `trimR` only removes a suffix. -/
theorem trimR_append (s : Str) : ∃ u, trimR s ++ u = s := by
  rw [trimR_eq_rdropWhile]
  exact List.rdropWhile_prefix isWs s

theorem not_ws_of_trimL_cons {c : Char} {t : Str} (h : trimL (c :: t) = c :: t) :
    isWs c = false := by
  by_contra hc
  rw [Bool.not_eq_false] at hc
  rw [trimL, List.dropWhile_cons_of_pos hc] at h
  have hlen : (List.dropWhile isWs t).length ≤ t.length :=
    (List.dropWhile_suffix isWs).sublist.length_le
  rw [h] at hlen
  simp at hlen

theorem trimL_trimR_of_trimL {s : Str} (h : trimL s = s) : trimL (trimR s) = trimR s := by
  obtain ⟨u, hu⟩ := trimR_append s
  cases hr : trimR s with
  | nil => rfl
  | cons c t =>
    rw [hr] at hu
    have hs : s = c :: (t ++ u) := by rw [← hu]; simp
    rw [hs] at h
    have hc := not_ws_of_trimL_cons h
    rw [trimL, List.dropWhile_cons_of_neg (by simp [hc])]

theorem trimR_idem (s : Str) : trimR (trimR s) = trimR s := by
  simp only [trimR_eq_rdropWhile]
  exact List.rdropWhile_idempotent isWs s

theorem jsTrim_idem (s : Str) : jsTrim (jsTrim s) = jsTrim s := by
  unfold jsTrim
  rw [trimL_trimR_of_trimL (trimL_idem s), trimR_idem]

theorem jsTrim_cons_ws {c : Char} (hc : isWs c = true) (s : Str) :
    jsTrim (c :: s) = jsTrim s := by
  unfold jsTrim
  rw [trimL, List.dropWhile_cons_of_pos hc]
  rfl

/-- `jsSplitAux` on a comma-free string yields one chunk. -/
theorem jsSplitAux_no_comma {s : Str} (h : ',' ∉ s) (acc : List Char) :
    jsSplitAux s acc = [acc.reverse ++ s] := by
  induction s generalizing acc with
  | nil => simp [jsSplitAux]
  | cons c cs ih =>
    have hc : c ≠ ',' := fun he => h (he ▸ List.mem_cons_self c cs)
    have hcs : ',' ∉ cs := fun hm => h (List.mem_cons_of_mem c hm)
    have step : jsSplitAux (c :: cs) acc = jsSplitAux cs (c :: acc) := by
      simp [jsSplitAux, hc]
    rw [step, ih hcs (c :: acc)]
    simp

/-- Splitting at the first comma of `a ++ ',' :: s` when `a` is comma-free. -/
theorem jsSplitAux_comma {a : Str} (h : ',' ∉ a) (s : Str) (acc : List Char) :
    jsSplitAux (a ++ ',' :: s) acc = (acc.reverse ++ a) :: jsSplitAux s [] := by
  induction a generalizing acc with
  | nil => simp [jsSplitAux]
  | cons c cs ih =>
    have hc : c ≠ ',' := fun he => h (he ▸ List.mem_cons_self c cs)
    have hcs : ',' ∉ cs := fun hm => h (List.mem_cons_of_mem c hm)
    have step : jsSplitAux ((c :: cs) ++ ',' :: s) acc = jsSplitAux (cs ++ ',' :: s) (c :: acc) := by
      simp [jsSplitAux, hc]
    rw [step, ih hcs (c :: acc)]
    simp

/-- The accumulator only prepends onto the first chunk. -/
theorem jsSplitAux_acc (s : Str) (acc : List Char) :
    ∃ h t, jsSplit s = h :: t ∧ jsSplitAux s acc = (acc.reverse ++ h) :: t := by
  induction s generalizing acc with
  | nil => exact ⟨[], [], rfl, by simp [jsSplitAux]⟩
  | cons c cs ih =>
    by_cases hc : c = ','
    · subst hc
      exact ⟨[], jsSplitAux cs [], by simp [jsSplit, jsSplitAux], by simp [jsSplitAux]⟩
    · obtain ⟨h0, t0, h1, h2⟩ := ih (c :: acc)
      obtain ⟨h0', t0', h1', h2'⟩ := ih [c]
      rw [h1'] at h1
      injection h1 with e1 e2
      subst e1
      subst e2
      refine ⟨c :: h0', t0', ?_, ?_⟩
      · show jsSplitAux (c :: cs) [] = (c :: h0') :: t0'
        simp only [jsSplitAux, if_neg hc]
        rw [h2']
        simp
      · show jsSplitAux (c :: cs) acc = (acc.reverse ++ c :: h0') :: t0'
        simp only [jsSplitAux, if_neg hc]
        rw [h2]
        simp

/-- Chunks produced by `jsSplit` contain no comma. -/
theorem no_comma_of_mem_jsSplitAux {s : Str} {acc : List Char} (hacc : ',' ∉ acc)
    {y : Str} (hy : y ∈ jsSplitAux s acc) : ',' ∉ y := by
  induction s generalizing acc with
  | nil =>
    simp only [jsSplitAux, List.mem_singleton] at hy
    subst hy
    simpa using hacc
  | cons c cs ih =>
    by_cases hc : c = ','
    · subst hc
      simp [jsSplitAux] at hy
      rcases hy with hy | hy
      · subst hy; simpa using hacc
      · exact ih (by simp) hy
    · simp only [jsSplitAux, if_neg hc] at hy
      refine ih ?_ hy
      intro hm
      rcases List.mem_cons.mp hm with he | he
      · exact hc he.symm
      · exact hacc he

theorem parseTags_nil : parseTags [] = [] := rfl

/-- A leading whitespace character that is not a comma does not change the
parsed tag list. -/
theorem parseTags_cons_ws {c : Char} (hc : isWs c = true) (hcc : c ≠ ',') (s : Str) :
    parseTags (c :: s) = parseTags s := by
  obtain ⟨h0, t0, h1, h2⟩ := jsSplitAux_acc s [c]
  unfold parseTags
  have step : jsSplit (c :: s) = jsSplitAux s [c] := by simp [jsSplit, jsSplitAux, hcc]
  rw [step, h2, h1]
  simp only [List.reverse_singleton, List.singleton_append, List.map_cons]
  rw [jsTrim_cons_ws hc]

/-- Parsing a good tag followed by a comma and a remainder. -/
theorem parseTags_good_append_comma {a : Str} (ha : ',' ∉ a) (hta : jsTrim a = a)
    (hne : a ≠ []) (s : Str) : parseTags (a ++ ',' :: s) = a :: parseTags s := by
  unfold parseTags
  rw [jsSplit, jsSplitAux_comma ha]
  simp only [List.reverse_nil, List.nil_append, List.map_cons, hta]
  rw [List.filter_cons]
  simp [hne]
  rfl

/-- Parsing a single good tag. -/
theorem parseTags_good_single {a : Str} (ha : ',' ∉ a) (hta : jsTrim a = a)
    (hne : a ≠ []) : parseTags a = [a] := by
  unfold parseTags
  rw [jsSplit, jsSplitAux_no_comma ha]
  simp [hta, hne]

theorem parseTags_mem_ne_nil {s x : Str} (hx : x ∈ parseTags s) : x ≠ [] := by
  unfold parseTags at hx
  have hp := List.of_mem_filter hx
  simpa using hp

theorem parseTags_mem_no_comma {s x : Str} (hx : x ∈ parseTags s) : ',' ∉ x := by
  unfold parseTags at hx
  have hx1 := List.mem_of_mem_filter hx
  obtain ⟨y, hy, he⟩ := List.mem_map.mp hx1
  intro hcm
  rw [← he] at hcm
  exact no_comma_of_mem_jsSplitAux (by simp) hy (mem_jsTrim hcm)

theorem parseTags_mem_trimmed {s x : Str} (hx : x ∈ parseTags s) : jsTrim x = x := by
  unfold parseTags at hx
  have hx1 := List.mem_of_mem_filter hx
  obtain ⟨y, _, he⟩ := List.mem_map.mp hx1
  rw [← he]
  exact jsTrim_idem y

/-- Every tag produced by the parsing pipeline is nonempty, comma-free and
trimmed. -/
theorem parseTags_mem_good {s x : Str} (hx : x ∈ parseTags s) :
    x ≠ [] ∧ ',' ∉ x ∧ jsTrim x = x :=
  ⟨parseTags_mem_ne_nil hx, parseTags_mem_no_comma hx, parseTags_mem_trimmed hx⟩

/-- Round trip: joining good tags with `", "` and re-parsing give back the
same list. -/
theorem parseTags_jsJoin {l : List Str} (h : ∀ x ∈ l, x ≠ [] ∧ ',' ∉ x ∧ jsTrim x = x) :
    parseTags (jsJoin sepCommaSpace l) = l := by
  induction l with
  | nil => rfl
  | cons x xs ih =>
    obtain ⟨h1, h2, h3⟩ := h x (List.mem_cons_self x xs)
    cases xs with
    | nil => simpa [jsJoin] using parseTags_good_single h2 h3 h1
    | cons y ys =>
      have hrest : ∀ z ∈ y :: ys, z ≠ [] ∧ ',' ∉ z ∧ jsTrim z = z :=
        fun z hz => h z (List.mem_cons_of_mem x hz)
      have hj : jsJoin sepCommaSpace (x :: y :: ys) =
          x ++ ',' :: (' ' :: jsJoin sepCommaSpace (y :: ys)) := by
        simp [jsJoin, sepCommaSpace]
      rw [hj, parseTags_good_append_comma h2 h3 h1,
        parseTags_cons_ws (by decide) (by decide), ih hrest]

theorem mem_jsSetAdd {l : List Str} {r x : Str} : x ∈ jsSetAdd l r ↔ x ∈ l ∨ x = r := by
  unfold jsSetAdd
  split
  · constructor
    · exact fun hx => Or.inl hx
    · rintro (hx | rfl)
      · exact hx
      · assumption
  · simp

theorem mem_foldl_jsSetAdd (l : List Str) (acc : List Str) (x : Str) :
    x ∈ List.foldl jsSetAdd acc l ↔ x ∈ acc ∨ x ∈ l := by
  induction l generalizing acc with
  | nil => simp
  | cons c t ih =>
    rw [List.foldl_cons, ih]
    simp [mem_jsSetAdd, or_assoc]

theorem mem_jsSetOf {l : List Str} {x : Str} : x ∈ jsSetOf l ↔ x ∈ l := by
  unfold jsSetOf
  rw [mem_foldl_jsSetAdd]
  simp

/-- The two marker tags are themselves good tags. -/
theorem ripShipTag_good : ripShipTag ≠ [] ∧ ',' ∉ ripShipTag ∧ jsTrim ripShipTag = ripShipTag := by
  refine ⟨by decide, by decide, ?_⟩
  rfl

theorem ripshipTag_good : ripshipTag ≠ [] ∧ ',' ∉ ripshipTag ∧ jsTrim ripshipTag = ripshipTag := by
  refine ⟨by decide, by decide, ?_⟩
  rfl

/-! ## Structural lemmas about the index.js loop -/

theorem record_inv (st : St) (c : Call) : (record st c).inv = st.inv := rfl

theorem record_calls (st : St) (c : Call) : (record st c).calls = st.calls ++ [c] := rfl

/-- A line item with a falsy field is skipped without any call. -/
theorem processLineIndex_skip (env : Env) (st : St) (li : LineItem)
    (h : (truthyNum li.product_id && truthyNum li.variant_id && truthyNum li.quantity) = false) :
    processLineIndex env st li = (st, false) := by
  unfold processLineIndex
  simp [h]

/-- An undetected line item leaves the state unchanged except possibly for
one metafield lookup, and does not set the flag. -/
theorem processLineIndex_undetected_eq (env : Env) (st : St) (li : LineItem)
    (h : detectedIndex env li = false) :
    processLineIndex env st li = (st, false) ∨
    processLineIndex env st li =
      (record st (Call.getMetafield (some (li.product_id.getD 0))), false) := by
  by_cases hf : (truthyNum li.product_id && truthyNum li.variant_id && truthyNum li.quantity) = true
  · right
    have hd : truthyStr (env.productMasterSku (li.product_id.getD 0)) = false := by
      unfold detectedIndex at h
      simpa [hf] using h
    unfold processLineIndex
    rw [if_pos hf]
    cases hms : env.productMasterSku (li.product_id.getD 0) with
    | none => simp [hms]
    | some v =>
      have hv : v = [] := by
        rw [hms] at hd
        simpa [truthyStr] using hd
      subst hv
      simp [hms]
  · left
    exact processLineIndex_skip env st li (by simpa using hf)

/-- A detected line item always sets the flag. -/
theorem processLineIndex_detected_flag (env : Env) (st : St) (li : LineItem)
    (h : detectedIndex env li = true) : (processLineIndex env st li).2 = true := by
  unfold detectedIndex at h
  have hf : (truthyNum li.product_id && truthyNum li.variant_id && truthyNum li.quantity) = true := by
    rcases Bool.and_eq_true_iff.mp h with ⟨h1, _⟩
    exact h1
  have hd : truthyStr (env.productMasterSku (li.product_id.getD 0)) = true :=
    (Bool.and_eq_true_iff.mp h).2
  unfold processLineIndex
  rw [if_pos hf]
  cases hms : env.productMasterSku (li.product_id.getD 0) with
  | none => rw [hms] at hd; simp [truthyStr] at hd
  | some v =>
    have hv : v ≠ [] := by
      rw [hms] at hd
      simpa [truthyStr] using hd
    simp only [hms, if_neg hv]
    by_cases hrip : env.inventoryItemOf (li.variant_id.getD 0) = 0
    · simp [hrip, hv]
    · simp only [if_neg hrip, hv, if_neg]
      cases hbv : env.variantBySku v with
      | none => simp
      | some mid =>
        cases hcd : clampDeductIndex (li.quantity.getD 0)
            (((record (applyAdjust (record (record (record st
              (Call.getMetafield (some (li.product_id.getD 0))))
              (Call.getVariant (some (li.variant_id.getD 0))))
              (Call.getVariantBySku v)) (env.inventoryItemOf (li.variant_id.getD 0))
              (li.quantity.getD 0)) (Call.getLevel mid)).inv mid).getD 0) with
        | none => simp [hcd]
        | some d => simp [hcd]

/-- Any adjust call emitted by a line-item step targets either the rip
item (with delta exactly the quantity) or the master item (with the
clamped deduction); with no master variant resolvable there is no adjust
call and no inventory change at all. -/
theorem processLineIndex_no_master (env : Env) (st : St) (li : LineItem)
    (h : ∀ s, env.variantBySku s = none) :
    (processLineIndex env st li).1.inv = st.inv ∧
    ∀ c ∈ (processLineIndex env st li).1.calls, c ∈ st.calls ∨ isAdjust c = false := by
  unfold processLineIndex
  by_cases hf : (truthyNum li.product_id && truthyNum li.variant_id && truthyNum li.quantity) = true
  · rw [if_pos hf]
    simp only []
    cases hms : env.productMasterSku (li.product_id.getD 0) with
    | none =>
      simp only [hms]
      refine ⟨rfl, ?_⟩
      intro c hc
      rw [record_calls] at hc
      rcases List.mem_append.mp hc with hc | hc
      · exact Or.inl hc
      · rw [List.mem_singleton.mp hc]
        exact Or.inr rfl
    | some v =>
      by_cases hv : v = []
      · subst hv
        simp only [hms, reduceIte]
        refine ⟨rfl, ?_⟩
        intro c hc
        rw [record_calls] at hc
        rcases List.mem_append.mp hc with hc | hc
        · exact Or.inl hc
        · rw [List.mem_singleton.mp hc]
          exact Or.inr rfl
      · simp only [hms, if_neg hv]
        by_cases hrip : env.inventoryItemOf (li.variant_id.getD 0) = 0
        · simp only [if_pos hrip]
          refine ⟨rfl, ?_⟩
          intro c hc
          simp only [record_calls, List.append_assoc, List.mem_append,
            List.mem_singleton] at hc
          rcases hc with hc | hc | hc
          · exact Or.inl hc
          · rw [hc]
            exact Or.inr rfl
          · rw [hc]
            exact Or.inr rfl
        · simp only [if_neg hrip, h v]
          refine ⟨rfl, ?_⟩
          intro c hc
          simp only [record_calls, List.append_assoc, List.mem_append,
            List.mem_singleton] at hc
          rcases hc with hc | hc | hc | hc
          · exact Or.inl hc
          · rw [hc]
            exact Or.inr rfl
          · rw [hc]
            exact Or.inr rfl
          · rw [hc]
            exact Or.inr rfl
  · rw [if_neg hf]
    exact ⟨rfl, fun c hc => Or.inl hc⟩

/-- The loop keeps a raised flag raised. -/
theorem ripShipLoopIndex_flag_true (env : Env) (items : List LineItem) :
    ∀ st, (ripShipLoopIndex env st true items).2 = true := by
  induction items with
  | nil => intro st; rfl
  | cons li rest ih =>
    intro st
    simp only [ripShipLoopIndex, Bool.true_or]
    exact ih _

/-- A detected member of the list makes the loop end with a raised flag. -/
theorem ripShipLoopIndex_detected (env : Env) (items : List LineItem) (li : LineItem)
    (hmem : li ∈ items) (h : detectedIndex env li = true) :
    ∀ st flag, (ripShipLoopIndex env st flag items).2 = true := by
  induction items with
  | nil => cases hmem
  | cons hd rest ih =>
    intro st flag
    rcases List.mem_cons.mp hmem with he | he
    · subst he
      simp only [ripShipLoopIndex]
      rw [processLineIndex_detected_flag env st li h, Bool.or_true]
      exact ripShipLoopIndex_flag_true env rest _
    · simp only [ripShipLoopIndex]
      exact ih he _ _

/-- With no detected item the loop neither raises the flag nor touches
inventory, and adds only metafield lookups. -/
theorem ripShipLoopIndex_undetected (env : Env) (items : List LineItem)
    (h : ∀ li ∈ items, detectedIndex env li = false) :
    ∀ st flag, (ripShipLoopIndex env st flag items).2 = flag ∧
      (ripShipLoopIndex env st flag items).1.inv = st.inv ∧
      ∀ c ∈ (ripShipLoopIndex env st flag items).1.calls,
        c ∈ st.calls ∨ ∃ p, c = Call.getMetafield p := by
  induction items with
  | nil => exact fun st flag => ⟨rfl, rfl, fun c hc => Or.inl hc⟩
  | cons li rest ih =>
    intro st flag
    have hrest : ∀ l ∈ rest, detectedIndex env l = false :=
      fun l hl => h l (List.mem_cons_of_mem _ hl)
    rcases processLineIndex_undetected_eq env st li (h li (List.mem_cons_self _ _)) with
      hli | hli
    · simp only [ripShipLoopIndex, hli, Bool.or_false]
      exact ih hrest st flag
    · simp only [ripShipLoopIndex, hli, Bool.or_false]
      obtain ⟨h1, h2, h3⟩ := ih hrest (record st (Call.getMetafield (some (li.product_id.getD 0)))) flag
      refine ⟨h1, by rw [h2, record_inv], ?_⟩
      intro c hc
      rcases h3 c hc with hc1 | hc1
      · rw [record_calls] at hc1
        rcases List.mem_append.mp hc1 with hc2 | hc2
        · exact Or.inl hc2
        · exact Or.inr ⟨_, List.mem_singleton.mp hc2⟩
      · exact Or.inr hc1

/-- With no resolvable master variant the loop makes no adjust call and
leaves inventory untouched. -/
theorem ripShipLoopIndex_no_master (env : Env) (items : List LineItem)
    (h : ∀ s, env.variantBySku s = none) :
    ∀ st flag, (ripShipLoopIndex env st flag items).1.inv = st.inv ∧
      ∀ c ∈ (ripShipLoopIndex env st flag items).1.calls,
        c ∈ st.calls ∨ isAdjust c = false := by
  induction items with
  | nil => exact fun st flag => ⟨rfl, fun c hc => Or.inl hc⟩
  | cons li rest ih =>
    intro st flag
    obtain ⟨h1, h2⟩ := processLineIndex_no_master env st li h
    obtain ⟨h3, h4⟩ := ih ((processLineIndex env st li).1) (flag || (processLineIndex env st li).2)
    simp only [ripShipLoopIndex]
    refine ⟨by rw [h3, h1], ?_⟩
    intro c hc
    rcases h4 c hc with hc1 | hc1
    · exact h2 c hc1
    · exact Or.inr hc1

/-! ## Structural lemmas about the orders-create.js handler loop -/

theorem applyAdjust_calls (st : St) (i d : Int) :
    (applyAdjust st i d).calls = st.calls ++ [Call.adjust i d] := rfl

/-- An undetected item (product id present, metafield falsy) only records
the metafield lookup and does not raise the flag. -/
theorem processLineHandler_undetected (env : Env) (st : St) (li : LineItem) (pid : Int)
    (hp : li.product_id = some pid) (h : truthyStr (env.productMasterSku pid) = false) :
    processLineHandler env st li = .ok (record st (Call.getMetafield (some pid)), false) := by
  unfold processLineHandler
  rw [hp]
  simp only []
  cases hms : env.productMasterSku pid with
  | none => simp [hms]
  | some v =>
    have hv : v = [] := by
      rw [hms] at h
      simpa [truthyStr] using h
    subst hv
    simp [hms]

/-- A detected, fully-formed item always succeeds, raises the flag, and its
only new adjust calls are the `+q` reversal on the rip item and, when the
master variant resolves, the `safeAdjustment` call on the master item. -/
theorem processLineHandler_detected (env : Env) (st : St) (li : LineItem)
    (pid vid q : Int) (sku : Str) (hp : li.product_id = some pid)
    (hv : li.variant_id = some vid) (hq : li.quantity = some q)
    (hms : env.productMasterSku pid = some sku) (hsku : sku ≠ []) :
    ∃ st1, processLineHandler env st li = .ok (st1, true) ∧
      Call.adjust (env.inventoryItemOf vid) q ∈ st1.calls ∧
      ∀ i d, Call.adjust i d ∈ st1.calls → Call.adjust i d ∈ st.calls ∨
        (i = env.inventoryItemOf vid ∧ d = q) ∨
        ∃ mid, env.variantBySku sku = some mid ∧ i = mid := by
  unfold processLineHandler
  rw [hp]
  simp only [hms, if_neg hsku]
  rw [hv]
  simp only []
  rw [hq]
  simp only []
  cases hbv : env.variantBySku sku with
  | none =>
    refine ⟨_, rfl, ?_, ?_⟩
    · simp [record_calls, applyAdjust_calls]
    · intro i d hmem
      simp only [record_calls, applyAdjust_calls, List.append_assoc, List.mem_append,
        List.mem_singleton] at hmem
      rcases hmem with hm | hm | hm | hm | hm
      · exact Or.inl hm
      · cases hm
      · cases hm
      · injection hm with e1 e2
        exact Or.inr (Or.inl ⟨e1, e2⟩)
      · cases hm
  | some mid =>
    refine ⟨_, rfl, ?_, ?_⟩
    · simp [record_calls, applyAdjust_calls]
    · intro i d hmem
      simp only [record_calls, applyAdjust_calls, List.append_assoc, List.mem_append,
        List.mem_singleton] at hmem
      rcases hmem with hm | hm | hm | hm | hm | hm | hm
      · exact Or.inl hm
      · cases hm
      · cases hm
      · injection hm with e1 e2
        exact Or.inr (Or.inl ⟨e1, e2⟩)
      · cases hm
      · cases hm
      · injection hm with e1 e2
        exact Or.inr (Or.inr ⟨mid, rfl, e1⟩)

/-- The loop over fully-formed items never throws, and its final flag is
the disjunction of the incoming flag with per-item detection. -/
theorem handlerLoop_wellformed (env : Env) (items : List LineItem)
    (h : ∀ li ∈ items, wellFormedItem li = true) :
    ∀ st flag, ∃ st1, handlerLoop env st flag items =
      .ok (st1, flag || items.any (fun li => detectedHandler env li)) := by
  induction items with
  | nil =>
    intro st flag
    exact ⟨st, by simp [handlerLoop]⟩
  | cons li rest ih =>
    intro st flag
    have hwf := h li (List.mem_cons_self _ _)
    have hrest : ∀ l ∈ rest, wellFormedItem l = true :=
      fun l hl => h l (List.mem_cons_of_mem _ hl)
    unfold wellFormedItem at hwf
    obtain ⟨pid, hpid⟩ := Option.isSome_iff_exists.mp (by
      rcases Bool.and_eq_true_iff.mp hwf with ⟨h1, _⟩
      exact (Bool.and_eq_true_iff.mp h1).1)
    by_cases hdet : detectedHandler env li = true
    · have hdet1 : truthyStr (env.productMasterSku pid) = true := by
        simpa [detectedHandler, hpid] using hdet
      have hms : ∃ sku, env.productMasterSku pid = some sku ∧ sku ≠ [] := by
        cases hm : env.productMasterSku pid with
        | none => rw [hm] at hdet1; simp [truthyStr] at hdet1
        | some v =>
          rw [hm] at hdet1
          exact ⟨v, rfl, by simpa [truthyStr] using hdet1⟩
      obtain ⟨sku, hms, hsku⟩ := hms
      obtain ⟨vid, hvid⟩ := Option.isSome_iff_exists.mp (by
        rcases Bool.and_eq_true_iff.mp hwf with ⟨h1, _⟩
        exact (Bool.and_eq_true_iff.mp h1).2)
      obtain ⟨q, hq⟩ := Option.isSome_iff_exists.mp (Bool.and_eq_true_iff.mp hwf).2
      obtain ⟨st1, heq, _, _⟩ :=
        processLineHandler_detected env st li pid vid q sku hpid hvid hq hms hsku
      obtain ⟨st2, heq2⟩ := ih hrest st1 (flag || true)
      refine ⟨st2, ?_⟩
      simp only [handlerLoop, heq, heq2, List.any_cons, hdet]
      congr 1
      simp
    · have hund : truthyStr (env.productMasterSku pid) = false := by
        have hdf : detectedHandler env li = false := by simpa using hdet
        simpa [detectedHandler, hpid] using hdf
      obtain ⟨st2, heq2⟩ := ih hrest (record st (Call.getMetafield (some pid))) flag
      refine ⟨st2, ?_⟩
      simp only [handlerLoop, processLineHandler_undetected env st li pid hpid hund,
        Bool.or_false, heq2, List.any_cons]
      congr 1
      have hdf : detectedHandler env li = false := by simpa using hdet
      simp [hdf]

/-- With no detected item the loop succeeds with an unchanged flag and
inventory, adding only metafield lookups. -/
theorem handlerLoop_no_detection (env : Env) (items : List LineItem)
    (h : ∀ li ∈ items, ∃ pid, li.product_id = some pid ∧
      truthyStr (env.productMasterSku pid) = false) :
    ∀ st flag, ∃ st1, handlerLoop env st flag items = .ok (st1, flag) ∧
      st1.inv = st.inv ∧
      ∀ c ∈ st1.calls, c ∈ st.calls ∨ ∃ p, c = Call.getMetafield p := by
  induction items with
  | nil =>
    intro st flag
    exact ⟨st, by simp [handlerLoop], rfl, fun c hc => Or.inl hc⟩
  | cons li rest ih =>
    intro st flag
    obtain ⟨pid, hpid, hund⟩ := h li (List.mem_cons_self _ _)
    have hrest := fun l hl => h l (List.mem_cons_of_mem li hl)
    obtain ⟨st2, heq2, hinv, hcalls⟩ :=
      ih hrest (record st (Call.getMetafield (some pid))) flag
    refine ⟨st2, ?_, ?_, ?_⟩
    · simp only [handlerLoop, processLineHandler_undetected env st li pid hpid hund,
        Bool.or_false, heq2]
    · rw [hinv, record_inv]
    · intro c hc
      rcases hcalls c hc with hc1 | hc1
      · rw [record_calls] at hc1
        rcases List.mem_append.mp hc1 with hc2 | hc2
        · exact Or.inl hc2
        · exact Or.inr ⟨_, List.mem_singleton.mp hc2⟩
      · exact Or.inr hc1

/-! ## Claim C6 -/

/-- C6: the Order Tagger is idempotent and preserving.  For the
index.js/server.js tagger (`tagOrderRipShip`): when the marker is already
among the parsed tags, the written string parses back to exactly the same
tag list, and every pre-existing tag always survives into the written
result.  For the Set-based orders-create.js/part_000 tagger
(`tagOrderHandler`): when the marker is already present the written tag
set is unchanged (membership-equal; the `Set` also removes duplicates), and
every pre-existing tag always survives. -/
theorem C6_tagger_idempotent_preserving :
    (∀ tags : Option Str, ripShipTag ∈ parseTags (tags.getD []) →
        parseTags (tagOrderRipShip tags) = parseTags (tags.getD [])) ∧
    (∀ tags : Option Str, ∀ x ∈ parseTags (tags.getD []), x ∈ parseTags (tagOrderRipShip tags)) ∧
    (∀ tags : Option Str, ripshipTag ∈ parseTags (tags.getD []) →
        ∀ x, x ∈ parseTags (tagOrderHandler tags) ↔ x ∈ parseTags (tags.getD [])) ∧
    (∀ tags : Option Str, ∀ x ∈ parseTags (tags.getD []), x ∈ parseTags (tagOrderHandler tags)) := by
  have hsetGood : ∀ tags : Option Str,
      ∀ z ∈ jsSetAdd (jsSetOf (parseTags (tags.getD []))) ripshipTag,
        z ≠ [] ∧ ',' ∉ z ∧ jsTrim z = z := by
    intro tags z hz
    rcases mem_jsSetAdd.mp hz with hz1 | rfl
    · exact parseTags_mem_good (mem_jsSetOf.mp hz1)
    · exact ripshipTag_good
  refine ⟨?_, ?_, ?_, ?_⟩
  · intro tags hm
    simp only [tagOrderRipShip, if_pos hm]
    exact parseTags_jsJoin (fun x hx => parseTags_mem_good hx)
  · intro tags x hx
    by_cases hm : ripShipTag ∈ parseTags (tags.getD [])
    · simp only [tagOrderRipShip, if_pos hm]
      rw [parseTags_jsJoin (fun z hz => parseTags_mem_good hz)]
      exact hx
    · simp only [tagOrderRipShip, if_neg hm]
      have hgood : ∀ z ∈ parseTags (tags.getD []) ++ [ripShipTag],
          z ≠ [] ∧ ',' ∉ z ∧ jsTrim z = z := by
        intro z hz
        rcases List.mem_append.mp hz with hz1 | hz1
        · exact parseTags_mem_good hz1
        · rw [List.mem_singleton.mp hz1]
          exact ripShipTag_good
      rw [parseTags_jsJoin hgood]
      exact List.mem_append_left _ hx
  · intro tags hm x
    simp only [tagOrderHandler]
    rw [parseTags_jsJoin (hsetGood tags), mem_jsSetAdd, mem_jsSetOf]
    constructor
    · rintro (hx | rfl)
      · exact hx
      · exact hm
    · exact fun hx => Or.inl hx
  · intro tags x hx
    simp only [tagOrderHandler]
    rw [parseTags_jsJoin (hsetGood tags), mem_jsSetAdd, mem_jsSetOf]
    exact Or.inl hx

/-- Witness for C6 at a concrete tag string that already carries the
markers. -/
theorem C6_witness :
    parseTags (tagOrderRipShip (some (['f', 'o', 'o', ',', ' '] ++ ripShipTag))) =
      parseTags ((some (['f', 'o', 'o', ',', ' '] ++ ripShipTag) : Option Str).getD []) :=
  C6_tagger_idempotent_preserving.1 (some (['f', 'o', 'o', ',', ' '] ++ ripShipTag)) (by decide)

/-! ## Claim C1 -/

/-- C1 counterexample: a present but malformed signature header (wrong
byte length, here the single character x against a 44-character digest)
makes `crypto.timingSafeEqual` throw, so the index.js route answers 500,
not the unauthorized 401 the claim requires for every non-matching
header. -/
theorem C1_counterexample :
    (webhookRouteIndex true digestFix (some ['x']) true (some orderFix) envFix invZero).1 = 500 ∧
    (webhookRouteIndex true digestFix (some ['x']) true (some orderFix) envFix invZero).1 ≠ 401 := by
  exact ⟨by decide, by decide⟩

/-- C1 amended: for the verifying handlers, a request whose header does
not equal the digest is never processed — no outbound calls and a response
independent of the body (verification precedes parsing).  In index.js the
status is 401 when the header is absent or of the digest's length, and 500
when a present header's length differs (the constant-time comparison
throws).  part_000 likewise never processes or answers 200 for a
non-matching header.  The orders-create.js handler performs no signature
verification at all: it takes no signature input and processes any
request (conjunct six shows it answering 200). -/
theorem C1_amended_verification :
    (∀ (digest h : Str) (envOk : Bool) (body : Option ShopOrder) (env : Env)
        (inv0 : Int → Option Int), h ≠ digest →
        ((webhookRouteIndex true digest (some h) envOk body env inv0).1 = 401 ∨
          (webhookRouteIndex true digest (some h) envOk body env inv0).1 = 500) ∧
        (webhookRouteIndex true digest (some h) envOk body env inv0).2 = [] ∧
        ∀ body2, webhookRouteIndex true digest (some h) envOk body env inv0 =
          webhookRouteIndex true digest (some h) envOk body2 env inv0) ∧
    (∀ (digest : Str) (envOk : Bool) (body : Option ShopOrder) (env : Env)
        (inv0 : Int → Option Int),
        webhookRouteIndex true digest none envOk body env inv0 = (401, [])) ∧
    (∀ (digest h : Str) (envOk : Bool) (body : Option ShopOrder) (env : Env)
        (inv0 : Int → Option Int), h.length = digest.length → h ≠ digest →
        webhookRouteIndex true digest (some h) envOk body env inv0 = (401, [])) ∧
    (∀ (digest h : Str) (envOk : Bool) (body : Option ShopOrder) (env : Env)
        (inv0 : Int → Option Int), h ≠ [] → h.length ≠ digest.length →
        webhookRouteIndex true digest (some h) envOk body env inv0 = (500, [])) ∧
    (∀ (digest h : Str) (body : Option ShopOrder) (env : Env) (inv0 : Int → Option Int),
        h ≠ digest →
        (handlerPart000 digest (some h) true body env inv0).1 ≠ 200 ∧
        (handlerPart000 digest (some h) true body env inv0).2 = []) ∧
    (∀ (env : Env) (inv0 : Int → Option Int) (order : ShopOrder),
        order.line_items = some [] →
        handlerOrdersCreate env inv0 true order = (200, [])) := by
  refine ⟨?_, ?_, ?_, ?_, ?_, ?_⟩
  · intro digest h envOk body env inv0 hne
    by_cases he : h = []
    · subst he
      simp [webhookRouteIndex, verifyShopifyHmac]
    · by_cases hl : h.length = digest.length
      · simp [webhookRouteIndex, verifyShopifyHmac, he, hl, hne]
      · simp [webhookRouteIndex, verifyShopifyHmac, he, hl]
  · intro digest envOk body env inv0
    simp [webhookRouteIndex, verifyShopifyHmac]
  · intro digest h envOk body env inv0 hl hne
    have he : h ≠ digest := hne
    by_cases hz : h = []
    · subst hz
      simp [webhookRouteIndex, verifyShopifyHmac]
    · simp [webhookRouteIndex, verifyShopifyHmac, hz, hl, he]
  · intro digest h envOk body env inv0 hz hl
    simp [webhookRouteIndex, verifyShopifyHmac, hz, hl]
  · intro digest h body env inv0 hne
    by_cases hl : h.length = digest.length
    · simp [handlerPart000, verifyShopifyWebhook, hl, hne]
    · simp [handlerPart000, verifyShopifyWebhook, hl]
  · intro env inv0 order h
    obtain ⟨oid, otags, oitems⟩ := order
    simp only at h
    subst h
    simp [handlerOrdersCreate, runHandlerCore, handlerLoop]

/-- Witness for C1 at a concrete same-length non-matching header. -/
theorem C1_witness :
    webhookRouteIndex true digestFix (some (List.replicate 43 'B' ++ ['=']))
      true (some orderFix) envFix invZero = (401, []) :=
  C1_amended_verification.2.2.1 digestFix (List.replicate 43 'B' ++ ['='])
    true (some orderFix) envFix invZero (by decide) (by decide)

/-! ## Claim C2 -/

/-- C2 counterexample: the server.js variant (orders-create.js lines
199-216) deducts the full quantity with no availability read and no clamp.
With master item 200 at zero available, a verified order for three units
yields the call `adjust 200 (-3)`, driving the master count to -3 — the
system's own adjustment pushes it below zero even though the count was
already ≤ 0. -/
theorem C2_counterexample :
    invZero 200 = some 0 ∧
    Call.adjust 200 (-3) ∈
      (webhookRouteServer digestFix (some digestFix) (some orderFix) envFix invZero).2 ∧
    (invZero 200).getD 0 +
      netAdjustment 200
        (webhookRouteServer digestFix (some digestFix) (some orderFix) envFix invZero).2 < 0 := by
  exact ⟨by decide, by decide, by decide⟩

/-- C2 amended: the clamp-and-deduct steps of index.js
(`clampDeductIndex`) and of the orders-create.js/part_000 handler
(`safeAdjustment`) never drive the master below zero: index.js applies no
adjustment at all when the read count is ≤ 0, and any deduction it makes
leaves the count ≥ 0; the handler's unconditional adjustment always leaves
`a + delta ≥ 0`, and when the count is ≤ 0 (or null) its delta is ≥ 0, not
a deduction.  The server.js variant has no such step (counterexample). -/
theorem C2_amended_never_below_zero :
    (∀ q a : Int, 0 < q → a ≤ 0 → clampDeductIndex q a = none) ∧
    (∀ q a d : Int, clampDeductIndex q a = some d → 0 ≤ a + d ∧ d < 0) ∧
    (∀ (q : Int) (a : Option Int), 0 < q → 0 ≤ a.getD 0 + safeAdjustment q a) ∧
    (∀ (q : Int) (a : Option Int), 0 < q → a.getD 0 ≤ 0 → 0 ≤ safeAdjustment q a) := by
  refine ⟨?_, ?_, ?_, ?_⟩
  · intro q a hq ha
    have hmin : min q a ≤ 0 := le_trans (min_le_right q a) ha
    simp [clampDeductIndex, hmin]
  · intro q a d h
    have h1 := min_le_left q a
    have h2 := min_le_right q a
    unfold clampDeductIndex at h
    by_cases hmin : min q a ≤ 0
    · simp [hmin] at h
    · simp [hmin] at h
      omega
  · intro q a hq
    unfold safeAdjustment
    by_cases hlt : a.getD 0 < q
    · simp [hlt]
    · simp [hlt]
      omega
  · intro q a hq ha
    unfold safeAdjustment
    have hlt : a.getD 0 < q := lt_of_le_of_lt ha hq
    simp [hlt]
    omega

/-- Witness for C2 at concrete values. -/
theorem C2_witness : clampDeductIndex 3 (-1) = none :=
  C2_amended_never_below_zero.1 3 (-1) (by decide) (by decide)

/-! ## Claim C3 -/

/-- C3 counterexample: in the orders-create.js handler the deduction
adjust call is made even when the computed value is zero — with master
stock 0 and quantity 3 the call `adjust 200 0` appears in the trace — and
for a negative count the applied delta is `-a > 0`
(`safeAdjustment 3 (some (-5)) = 5`), not the claimed
`min(q, max(a,0)) = 0`. -/
theorem C3_counterexample :
    Call.adjust 200 0 ∈ (handlerOrdersCreate envFix invZero true orderFix).2 ∧
    safeAdjustment 3 (some (-5)) = 5 := by
  exact ⟨by decide, by decide⟩

/-- C3 amended: index.js's step deducts exactly `min(q, max(a,0))`, makes
no adjust call when that value is zero, and for `a ≥ 0` leaves
`a - min(q, max(a,0)) ≥ 0`.  The orders-create.js/part_000 step computes
the same delta `-(min q (max a 0))` whenever the (null-coerced) count is
≥ 0 but performs the adjust call unconditionally (including a zero-delta
call), and for every count its unconditional call leaves the master at
`max(a - q, 0)`. -/
theorem C3_amended_deduction_amount :
    (∀ q a : Int, 0 < q →
        clampDeductIndex q a =
          if min q (max a 0) = 0 then none else some (-(min q (max a 0)))) ∧
    (∀ q a : Int, 0 < q → 0 ≤ a →
        a + (clampDeductIndex q a).getD 0 = a - min q (max a 0) ∧
        0 ≤ a - min q (max a 0)) ∧
    (∀ (q : Int) (a : Option Int), 0 < q → 0 ≤ a.getD 0 →
        safeAdjustment q a = -(min q (max (a.getD 0) 0))) ∧
    (∀ (q : Int) (a : Option Int), 0 < q →
        a.getD 0 + safeAdjustment q a = max (a.getD 0 - q) 0) := by
  refine ⟨?_, ?_, ?_, ?_⟩
  · intro q a hq
    unfold clampDeductIndex
    rcases le_total a 0 with ha | ha
    · have h1 : min q a ≤ 0 := le_trans (min_le_right q a) ha
      have h2 : max a 0 = 0 := max_eq_right ha
      have h3 : min q 0 = 0 := by omega
      simp [h1, h2, h3]
    · have h2 : max a 0 = a := max_eq_left ha
      rw [h2]
      by_cases hmin : min q a ≤ 0
      · have : min q a = 0 := by
          have := min_le_left q a
          have := min_le_right q a
          omega
        simp [hmin, this]
      · have : ¬ min q a = 0 := by omega
        simp [hmin, this]
  · intro q a hq ha
    have h2 : max a 0 = a := max_eq_left ha
    rw [h2]
    have h1 := min_le_left q a
    have h3 := min_le_right q a
    unfold clampDeductIndex
    by_cases hmin : min q a ≤ 0 <;> simp [hmin] <;> omega
  · intro q a hq ha
    unfold safeAdjustment
    have h2 : max (a.getD 0) 0 = a.getD 0 := max_eq_left ha
    rw [h2]
    by_cases hlt : a.getD 0 < q
    · have : min q (a.getD 0) = a.getD 0 := by omega
      simp [hlt, this]
    · have : min q (a.getD 0) = q := by omega
      simp [hlt, this]
  · intro q a hq
    unfold safeAdjustment
    by_cases hlt : a.getD 0 < q
    · have : max (a.getD 0 - q) 0 = 0 := by omega
      simp [hlt, this]
    · have : max (a.getD 0 - q) 0 = a.getD 0 - q := by omega
      simp [hlt, this]
      omega

/-- Witness for C3 at concrete values. -/
theorem C3_witness :
    clampDeductIndex 3 5 = if min 3 (max (5 : Int) 0) = 0 then none
      else some (-(min 3 (max (5 : Int) 0))) :=
  C3_amended_deduction_amount.1 3 5 (by decide)

/-! ## Claim C10 -/

/-- C10: a verified, well-formed JSON order payload without a `line_items`
field makes both the orders-create.js handler and part_000 answer 500 with
no outbound calls at all (no adjustments, no tag write): the `for ... of`
over the missing field throws and the catch block answers 500.  (index.js
instead defaults to an empty list, line 67.) -/
theorem C10_missing_line_items_500 :
    (∀ (env : Env) (inv0 : Int → Option Int) (order : ShopOrder),
        order.line_items = none →
        handlerOrdersCreate env inv0 true order = (500, [])) ∧
    (∀ (digest : Str) (env : Env) (inv0 : Int → Option Int) (order : ShopOrder),
        order.line_items = none →
        handlerPart000 digest (some digest) true (some order) env inv0 = (500, [])) := by
  constructor
  · intro env inv0 order h
    simp [handlerOrdersCreate, h]
  · intro digest env inv0 order h
    simp [handlerPart000, verifyShopifyWebhook, h]

/-- Witness for C10 on a concrete order without `line_items`. -/
theorem C10_witness : handlerOrdersCreate envFix invZero true orderNoItems = (500, []) :=
  C10_missing_line_items_500.1 envFix invZero orderNoItems rfl

/-! ## Claim C4 -/

/-- C4: for every line item that reaches the reversal step, the reversal
is an adjust call on the rip item's inventory item with delta exactly the
item's quantity, for every inventory state (in particular for every master
availability, clamped or skipped deduction): in index.js once detection
and both variant resolutions succeed, and in the orders-create.js/part_000
handler once detection succeeds (there the reversal precedes the master
lookup, so no resolution hypothesis on the master is needed). -/
theorem C4_reversal_exactly_q :
    (∀ (env : Env) (st : St) (li : LineItem) (pid vid q mid : Int) (sku : Str),
        li.product_id = some pid → pid ≠ 0 →
        li.variant_id = some vid → vid ≠ 0 →
        li.quantity = some q → q ≠ 0 →
        env.productMasterSku pid = some sku → sku ≠ [] →
        env.inventoryItemOf vid ≠ 0 →
        env.variantBySku sku = some mid →
        Call.adjust (env.inventoryItemOf vid) q ∈ (processLineIndex env st li).1.calls) ∧
    (∀ (env : Env) (st : St) (li : LineItem) (pid vid q : Int) (sku : Str),
        li.product_id = some pid → li.variant_id = some vid → li.quantity = some q →
        env.productMasterSku pid = some sku → sku ≠ [] →
        ∃ st1 f, processLineHandler env st li = .ok (st1, f) ∧
          Call.adjust (env.inventoryItemOf vid) q ∈ st1.calls) := by
  constructor
  · intro env st li pid vid q mid sku hp hp0 hv hv0 hq hq0 hms hsku hrip hbv
    unfold processLineIndex
    have hf : (truthyNum li.product_id && truthyNum li.variant_id && truthyNum li.quantity)
        = true := by
      simp [truthyNum, hp, hv, hq, hp0, hv0, hq0]
    rw [if_pos hf]
    simp only [hp, hv, hq, Option.getD_some, hms, if_neg hsku, if_neg hrip, hbv]
    cases hcd : clampDeductIndex q
        (((record (applyAdjust (record (record (record st (Call.getMetafield (some pid)))
          (Call.getVariant (some vid))) (Call.getVariantBySku sku))
          (env.inventoryItemOf vid) q) (Call.getLevel mid)).inv mid).getD 0) with
    | none =>
      simp only [hcd]
      simp [record_calls, applyAdjust_calls]
    | some d =>
      simp only [hcd]
      simp [record_calls, applyAdjust_calls]
  · intro env st li pid vid q sku hp hv hq hms hsku
    obtain ⟨st1, heq, hmem, _⟩ :=
      processLineHandler_detected env st li pid vid q sku hp hv hq hms hsku
    exact ⟨st1, true, heq, hmem⟩

/-- Witness for C4 at the concrete store. -/
theorem C4_witness :
    Call.adjust 100 3 ∈ (processLineIndex envFix ⟨invZero, []⟩ liFix).1.calls :=
  C4_reversal_exactly_q.1 envFix ⟨invZero, []⟩ liFix 1 5 3 200 skuM (by decide) (by decide)
    (by decide) (by decide) (by decide) (by decide) (by decide) (by decide) (by decide)
    (by decide)

/-! ## Claim C5 -/

/-- C5 counterexample: in the orders-create.js handler (and part_000) the
`+q` reversal on the sold item has already been applied when the master
SKU lookup comes back empty — the claim's "no inventory adjustment applied
for it (neither reversal nor deduction)" fails.  With no variant matching
any SKU, the processed order's trace contains `adjust 100 3`, and the
request still completes (the order is even tagged). -/
theorem C5_counterexample :
    handlerOrdersCreate envNoMaster invZero true orderFix =
      (200, [Call.getMetafield (some 1), Call.getVariant (some 5), Call.adjust 100 3,
        Call.getVariantBySku skuM, Call.putOrderTags 7 ripshipTag]) := by
  decide

/-- C5 amended: when the master SKU matches no variant, index.js applies
no inventory adjustment for the item (its reversal comes after the master
lookup) and raises only the detection flag; the orders-create.js/part_000
handler has already applied the `+q` reversal and skips only the
deduction; in both variants the loop then continues with the next line
item (the last two conjuncts are the loop-step equations). -/
theorem C5_amended_master_lookup_miss :
    (∀ (env : Env) (st : St) (li : LineItem) (pid vid q : Int) (sku : Str),
        li.product_id = some pid → pid ≠ 0 →
        li.variant_id = some vid → vid ≠ 0 →
        li.quantity = some q → q ≠ 0 →
        env.productMasterSku pid = some sku → sku ≠ [] →
        env.inventoryItemOf vid ≠ 0 →
        env.variantBySku sku = none →
        (processLineIndex env st li).1.inv = st.inv ∧
        (∀ i d, Call.adjust i d ∈ (processLineIndex env st li).1.calls →
          Call.adjust i d ∈ st.calls) ∧
        (processLineIndex env st li).2 = true) ∧
    (∀ (env : Env) (st : St) (li : LineItem) (pid vid q : Int) (sku : Str),
        li.product_id = some pid → li.variant_id = some vid → li.quantity = some q →
        env.productMasterSku pid = some sku → sku ≠ [] →
        env.variantBySku sku = none →
        ∃ st1, processLineHandler env st li = .ok (st1, true) ∧
          Call.adjust (env.inventoryItemOf vid) q ∈ st1.calls ∧
          ∀ i d, Call.adjust i d ∈ st1.calls →
            Call.adjust i d ∈ st.calls ∨ (i = env.inventoryItemOf vid ∧ d = q)) ∧
    (∀ (env : Env) (st : St) (flag : Bool) (li : LineItem) (rest : List LineItem),
        ripShipLoopIndex env st flag (li :: rest) =
          ripShipLoopIndex env (processLineIndex env st li).1
            (flag || (processLineIndex env st li).2) rest) ∧
    (∀ (env : Env) (st st1 : St) (flag f : Bool) (li : LineItem) (rest : List LineItem),
        processLineHandler env st li = .ok (st1, f) →
        handlerLoop env st flag (li :: rest) = handlerLoop env st1 (flag || f) rest) := by
  refine ⟨?_, ?_, ?_, ?_⟩
  · intro env st li pid vid q sku hp hp0 hv hv0 hq hq0 hms hsku hrip hbv
    unfold processLineIndex
    have hf : (truthyNum li.product_id && truthyNum li.variant_id && truthyNum li.quantity)
        = true := by
      simp [truthyNum, hp, hv, hq, hp0, hv0, hq0]
    rw [if_pos hf]
    simp only [hp, hv, hq, Option.getD_some, hms, if_neg hsku, if_neg hrip, hbv]
    refine ⟨rfl, ?_, by simp⟩
    intro i d hmem
    simp only [record_calls, List.append_assoc, List.mem_append, List.mem_singleton] at hmem
    rcases hmem with hm | hm | hm | hm
    · exact hm
    · cases hm
    · cases hm
    · cases hm
  · intro env st li pid vid q sku hp hv hq hms hsku hbv
    obtain ⟨st1, heq, hmem, hchar⟩ :=
      processLineHandler_detected env st li pid vid q sku hp hv hq hms hsku
    refine ⟨st1, heq, hmem, ?_⟩
    intro i d hm
    rcases hchar i d hm with hc | hc | hc
    · exact Or.inl hc
    · exact Or.inr hc
    · obtain ⟨mid, hmid, _⟩ := hc
      rw [hbv] at hmid
      cases hmid
  · intro env st flag li rest
    rfl
  · intro env st st1 flag f li rest heq
    simp [handlerLoop, heq]

/-- Witness for C5: on the concrete store with no resolvable master SKU,
the index.js line-item step still raises the detection flag. -/
theorem C5_witness : (processLineIndex envNoMaster ⟨invZero, []⟩ liFix).2 = true :=
  (C5_amended_master_lookup_miss.1 envNoMaster ⟨invZero, []⟩ liFix 1 5 3 skuM (by decide)
    (by decide) (by decide) (by decide) (by decide) (by decide) (by decide) (by decide)
    (by decide) (by decide)).2.2

/-! ## Claim C7 -/

/-- C7: a verified order none of whose line items carries the
rip.master_sku metafield produces no inventory adjustment and no tag
write, and the response is a success: for the index.js route (every call
in the trace is a read, none is an adjust or tag write, status 200) and
for the orders-create.js/part_000 handler (under the product ids being
present, since that handler throws on missing ones). -/
theorem C7_no_detection_no_effects :
    (∀ (digest : Str) (env : Env) (inv0 : Int → Option Int) (order : ShopOrder),
        digest ≠ [] →
        (∀ li ∈ order.line_items.getD [], detectedIndex env li = false) →
        (webhookRouteIndex true digest (some digest) true (some order) env inv0).1 = 200 ∧
        ∀ c ∈ (webhookRouteIndex true digest (some digest) true (some order) env inv0).2,
          isAdjustOrTag c = false) ∧
    (∀ (env : Env) (inv0 : Int → Option Int) (order : ShopOrder) (items : List LineItem),
        order.line_items = some items →
        (∀ li ∈ items, ∃ pid, li.product_id = some pid ∧
          truthyStr (env.productMasterSku pid) = false) →
        (handlerOrdersCreate env inv0 true order).1 = 200 ∧
        ∀ c ∈ (handlerOrdersCreate env inv0 true order).2, isAdjustOrTag c = false) := by
  constructor
  · intro digest env inv0 order hd h
    have hroute : webhookRouteIndex true digest (some digest) true (some order) env inv0 =
        (200, (handleRipShipLogic env ⟨inv0, []⟩ order).calls) := by
      simp [webhookRouteIndex, verifyShopifyHmac, hd]
    obtain ⟨h1, _, h3⟩ := ripShipLoopIndex_undetected env (order.line_items.getD []) h
      ⟨inv0, []⟩ false
    have hlogic : handleRipShipLogic env ⟨inv0, []⟩ order =
        (ripShipLoopIndex env ⟨inv0, []⟩ false (order.line_items.getD [])).1 := by
      unfold handleRipShipLogic
      simp only []
      rw [h1]
      simp
    rw [hroute, hlogic]
    refine ⟨rfl, ?_⟩
    intro c hc
    rcases h3 c hc with hc1 | hc1
    · cases hc1
    · obtain ⟨p, rfl⟩ := hc1
      rfl
  · intro env inv0 order items horder h
    obtain ⟨st1, heq, _, hcalls⟩ := handlerLoop_no_detection env items h ⟨inv0, []⟩ false
    have hrun : handlerOrdersCreate env inv0 true order = (200, st1.calls) := by
      simp [handlerOrdersCreate, horder, runHandlerCore, heq]
    rw [hrun]
    refine ⟨rfl, ?_⟩
    intro c hc
    rcases hcalls c hc with hc1 | hc1
    · cases hc1
    · obtain ⟨p, rfl⟩ := hc1
      rfl

/-- Witness for C7 on a store without any rip metafield. -/
theorem C7_witness :
    (webhookRouteIndex true digestFix (some digestFix) true (some orderFix) envNoMeta
      invZero).1 = 200 :=
  (C7_no_detection_no_effects.1 digestFix envNoMeta invZero orderFix (by decide)
    (by decide)).1

/-! ## Claim C8 -/

/-- C8 counterexample: the orders-create.js/part_000 handler does not
check its line-item fields.  For an item with a present product id but a
missing variant id, the metafield lookup is still performed (the claim
requires none), and the request then fails with a 500 on the variant
lookup instead of skipping the item. -/
theorem C8_counterexample :
    handlerOrdersCreate envFix invZero true orderNoVariantId =
      (500, [Call.getMetafield (some 1), Call.getVariant none]) ∧
    Call.getMetafield (some 1) ∈ (handlerOrdersCreate envFix invZero true orderNoVariantId).2 := by
  exact ⟨by decide, by decide⟩

/-- C8 amended: index.js skips a line item with any falsy field entirely —
no lookup, no adjustment, no flag.  The orders-create.js/part_000 handler
instead always performs the product-metafield lookup when the product id is
present (whatever the other fields), and a missing product id aborts the
request with the failed lookup recorded rather than skipping the item. -/
theorem C8_amended_falsy_resolver :
    (∀ (env : Env) (st : St) (li : LineItem),
        (truthyNum li.product_id && truthyNum li.variant_id && truthyNum li.quantity) = false →
        processLineIndex env st li = (st, false)) ∧
    (∀ (env : Env) (st : St) (li : LineItem) (pid : Int), li.product_id = some pid →
        Call.getMetafield (some pid) ∈ (stOf (processLineHandler env st li)).calls) ∧
    (∀ (env : Env) (st : St) (li : LineItem), li.product_id = none →
        processLineHandler env st li = .error (record st (Call.getMetafield none))) := by
  refine ⟨?_, ?_, ?_⟩
  · intro env st li h
    exact processLineIndex_skip env st li h
  · intro env st li pid hp
    unfold processLineHandler
    rw [hp]
    simp only []
    cases hms : env.productMasterSku pid with
    | none => simp [stOf, record_calls]
    | some v =>
      by_cases hv : v = []
      · subst hv
        simp [stOf, record_calls]
      · simp only [if_neg hv]
        cases hvid : li.variant_id with
        | none => simp [stOf, record_calls]
        | some vid =>
          simp only []
          cases hq : li.quantity with
          | none => simp [stOf, record_calls]
          | some q =>
            simp only []
            cases hbv : env.variantBySku v with
            | none => simp [stOf, record_calls, applyAdjust_calls]
            | some mid => simp [stOf, record_calls, applyAdjust_calls]
  · intro env st li h
    unfold processLineHandler
    rw [h]

/-- Witness for C8: index.js drops the item with the missing variant id
without any call. -/
theorem C8_witness :
    processLineIndex envFix ⟨invZero, []⟩ ⟨some 1, none, some 2⟩ = (⟨invZero, []⟩, false) :=
  C8_amended_falsy_resolver.1 envFix ⟨invZero, []⟩ ⟨some 1, none, some 2⟩ (by decide)

/-- The calls of `handleRipShipLogic`: the loop's calls, then the tag
write iff the flag was raised. -/
theorem handleRipShipLogic_calls (env : Env) (st : St) (order : ShopOrder) :
    (handleRipShipLogic env st order).calls =
      (ripShipLoopIndex env st false (order.line_items.getD [])).1.calls ++
      (if (ripShipLoopIndex env st false (order.line_items.getD [])).2 = true
        then [Call.putOrderTags order.id (tagOrderRipShip order.tags)] else []) := by
  unfold handleRipShipLogic
  simp only []
  by_cases hf : (ripShipLoopIndex env st false (order.line_items.getD [])).2 = true
  · rw [hf]
    simp [record_calls]
  · rw [Bool.not_eq_true] at hf
    rw [hf]
    simp

/-! ## Claim C9 -/

/-- C9: tagging is driven by detection alone.  In index.js the flag is set
as soon as a line item's rip.master_sku metafield is truthy, before any
variant resolution, so the order is tagged for every environment —
including one where no SKU resolves to a variant, in which case no
adjustment call happens at all yet the tag write still does.  The same
holds for the orders-create.js/part_000 handler on fully-formed items. -/
theorem C9_tag_on_detection :
    (∀ (env : Env) (inv0 : Int → Option Int) (order : ShopOrder) (li : LineItem),
        li ∈ order.line_items.getD [] → detectedIndex env li = true →
        Call.putOrderTags order.id (tagOrderRipShip order.tags) ∈
          (handleRipShipLogic env ⟨inv0, []⟩ order).calls) ∧
    (∀ (env : Env) (inv0 : Int → Option Int) (order : ShopOrder) (li : LineItem),
        li ∈ order.line_items.getD [] → detectedIndex env li = true →
        (∀ s, env.variantBySku s = none) →
        ∀ i d, Call.adjust i d ∉ (handleRipShipLogic env ⟨inv0, []⟩ order).calls) ∧
    (∀ (env : Env) (inv0 : Int → Option Int) (order : ShopOrder) (items : List LineItem)
        (li : LineItem), order.line_items = some items →
        (∀ l ∈ items, wellFormedItem l = true) →
        li ∈ items → detectedHandler env li = true →
        (handlerOrdersCreate env inv0 true order).1 = 200 ∧
        Call.putOrderTags order.id (tagOrderHandler order.tags) ∈
          (handlerOrdersCreate env inv0 true order).2) := by
  refine ⟨?_, ?_, ?_⟩
  · intro env inv0 order li hmem hdet
    have hflag := ripShipLoopIndex_detected env (order.line_items.getD []) li hmem hdet
      ⟨inv0, []⟩ false
    unfold handleRipShipLogic
    simp only []
    rw [hflag]
    simp [record_calls]
  · intro env inv0 order li hmem hdet hnone i d
    obtain ⟨_, hcalls⟩ := ripShipLoopIndex_no_master env (order.line_items.getD []) hnone
      ⟨inv0, []⟩ false
    intro hmem2
    rw [handleRipShipLogic_calls] at hmem2
    rcases List.mem_append.mp hmem2 with hm | hm
    · rcases hcalls _ hm with hc | hc
      · cases hc
      · cases hc
    · split at hm
      · cases List.mem_singleton.mp hm
      · cases hm
  · intro env inv0 order items li horder hwf hmem hdet
    obtain ⟨st1, heq⟩ := handlerLoop_wellformed env items hwf ⟨inv0, []⟩ false
    have hany : items.any (fun l => detectedHandler env l) = true :=
      List.any_eq_true.mpr ⟨li, hmem, hdet⟩
    rw [hany] at heq
    have hrun : handlerOrdersCreate env inv0 true order =
        (200, (record st1 (Call.putOrderTags order.id (tagOrderHandler order.tags))).calls) := by
      simp [handlerOrdersCreate, horder, runHandlerCore, heq]
    rw [hrun]
    exact ⟨rfl, by simp [record_calls]⟩

/-- Witness for C9: the concrete order is tagged although no master SKU
resolves and no adjustment is possible. -/
theorem C9_witness :
    Call.putOrderTags orderFix.id (tagOrderRipShip orderFix.tags) ∈
      (handleRipShipLogic envNoMaster ⟨invZero, []⟩ orderFix).calls :=
  C9_tag_on_detection.1 envNoMaster invZero orderFix liFix (by decide) (by decide)
